import Mathlib

/-!
Verification of the depth-encoding and temporal-blending core of
`src/share/meshFromKinect-old.js` (the `meshFromKinect` class).

Modelling conventions:
* JavaScript numbers are binary64 doubles.  The per-sample encoder
  arithmetic is exact in binary64 (every intermediate is a dyadic
  rational of at most 25 significant bits, far inside the 53-bit
  significand), so the encoder is modelled directly in `ℚ`.  The blend
  of `tweenCanvasData` is NOT exact: the weights `fadeCnt/25` are
  inexact doubles, and when the exact blended value falls exactly on a
  rounding boundary (a half-integer) the double computation can store
  the neighboring byte.  The blend therefore exists in two forms below:
  `blendPixel`, the exact-rational idealization, and `blendPixelFP`,
  the bit-faithful binary64 semantics built on the rounding map `fl`;
  claims whose truth depends on the difference are settled against
  `blendPixelFP`.
* Raw depth buffers are `Uint8Array`s, modelled as `List (Fin 256)`.
* `this.imageData.data` is a `Uint8ClampedArray`; a JavaScript store into
  it clamps to `[0, 255]` and rounds to the nearest integer, ties to
  even (ECMAScript `ToUint8Clamp`), modelled by `toUint8Clamp`.
* Out-of-bounds reads of a typed array yield `undefined`; under the
  bitwise operators `<<` and `|` of line 385/440/450 this is coerced via
  `ToInt32(NaN) = 0`, so an out-of-bounds byte reads as `0` (`byteAt`).
* Output is modelled as the list of RGBA pixels written by one call
  (the loop writes 4 consecutive bytes per sample, `j += 4`).
-/

/-- One raw byte of a `Uint8Array` depth buffer. -/
abbrev Byte := Fin 256

/-- A raw depth frame: the `Uint8Array` passed to `updateCanvasData` /
`tweenCanvasData` (little-endian 16-bit samples, two bytes each). -/
abbrev RawFrame := List Byte

/-- One RGBA pixel of the canvas `imageData.data` buffer, as the four
bytes written at offsets `j`, `j+1`, `j+2`, `j+3`. -/
abbrev Pixel := ℕ × ℕ × ℕ × ℕ

/-- Modelled from the spec: `BB.MathUtils.map`, the external BB library
linear-remap helper used at lines 389/392/443/446/453/456; the spec fixes
it as `outMin + (value - inMin) * (outMax - outMin) / (inMax - inMin)`,
with no clamping. -/
def BB.MathUtils.map (value inMin inMax outMin outMax : ℚ) : ℚ :=
  outMin + (value - inMin) * (outMax - outMin) / (inMax - inMin)

/-- The 16-bit sample reconstruction `hi << 8 | lo` of lines 385/440/450
(`var total = depth[i+1] << 8 | depth[i]`). -/
def jsTotal (lo hi : ℕ) : ℕ :=
  Nat.lor (hi <<< 8) lo

/-- The per-sample two-channel encoding inlined at lines 385-394 of
`updateCanvasData` (and repeated verbatim at lines 440-448 and 450-458 of
`tweenCanvasData`); the spec names it `encodeSample`.  Returns the pair
`(val1, val2)`, i.e. `(low, high)`, as exact numbers before any store
into the clamped byte buffer. -/
def encodeSample (lo hi : ℕ) : ℚ × ℚ :=
  let total := jsTotal lo hi
  if 1024 < total then
    (0, BB.MathUtils.map ((2048 : ℚ) - (total : ℚ)) 0 1024 255 0)
  else
    (BB.MathUtils.map (total : ℚ) 0 1024 255 0, 255)

/-- ECMAScript `ToUint8Clamp`: the conversion applied by a store into a
`Uint8ClampedArray` element (`data[j] = ...`): clamp to `[0, 255]`, then
round to the nearest integer, ties to even. -/
def toUint8Clamp (q : ℚ) : ℕ :=
  if q ≤ 0 then 0
  else if 255 ≤ q then 255
  else
    (if (⌊q⌋ : ℚ) + 1/2 < q then ⌊q⌋ + 1
     else if q < (⌊q⌋ : ℚ) + 1/2 then ⌊q⌋
     else if 2 ∣ ⌊q⌋ then ⌊q⌋ else ⌊q⌋ + 1).toNat

/-- Read byte `i` of a raw frame the way the JavaScript loops do:
in bounds it is the stored byte; out of bounds the `undefined` read is
coerced to `0` by the enclosing bitwise operators. -/
def byteAt (d : RawFrame) (i : ℕ) : ℕ :=
  (d.getD i 0).val

/-- The four bytes written for one sample by lines 396-399 of
`updateCanvasData`: `(val1, val2, val2, 255)` after the clamped stores. -/
def encodePixel (lo hi : ℕ) : Pixel :=
  (toUint8Clamp (encodeSample lo hi).1,
   toUint8Clamp (encodeSample lo hi).2,
   toUint8Clamp (encodeSample lo hi).2, 255)

/-- `meshFromKinect.prototype.updateCanvasData` (lines 377-408), the
non-blended frame encoding (the spec's `encodeFrame`): the loop
`for (i = 0; i < depth.length; i += 2)` writes one RGBA pixel per
iteration, i.e. `⌈depth.length / 2⌉` pixels. -/
def updateCanvasData (depth : RawFrame) : List Pixel :=
  (List.range ((depth.length + 1) / 2)).map fun p =>
    encodePixel (byteAt depth (2 * p)) (byteAt depth (2 * p + 1))

/-- `var steps = 25` of line 418: the fade-step constant
(the spec's `totalFadeSteps`). -/
def steps : ℕ := 25

/-- The state held across `tweenCanvasData` calls: fields
`this.prevCanvasData`, `this.newCanvasData`, `this.fadeCnt`
(lines 102-104).  The spec calls this `BlendState`, with
`previousFrame` / `currentFrame` / `stepIndex`. -/
structure BlendState where
  prevCanvasData : Option RawFrame
  newCanvasData : Option RawFrame
  fadeCnt : ℕ
deriving DecidableEq, Repr

/-- The initial state set by the constructor (lines 102-104):
`prevCanvasData = null`, `newCanvasData = null`, `fadeCnt = 0`. -/
def initState : BlendState :=
  ⟨none, none, 0⟩

/-- The frame-submission part of `tweenCanvasData(depth)` (lines
420-430), the spec's `submitFrame`.  If `newCanvasData` is `null` the
source stores `depth` there and re-enters itself; the re-entry sees
`fadeCnt === 0` (the only reachable case) and promotes, so both frames
become `raw`.  Otherwise the promotion at lines 427-430 runs only when
`fadeCnt === 0`; when a fade is mid-flight the argument `depth` is never
stored anywhere — the call only performs a blend tick. -/
def submitFrame (raw : RawFrame) (st : BlendState) : BlendState :=
  if st.newCanvasData = none then
    if st.fadeCnt = 0 then ⟨some raw, some raw, st.fadeCnt⟩
    else ⟨st.prevCanvasData, some raw, st.fadeCnt⟩
  else if st.fadeCnt = 0 then ⟨st.newCanvasData, some raw, 0⟩
  else st

/-- One blended RGBA pixel of the loop at lines 438-468, with the blend
arithmetic idealized in exact rationals: both samples are encoded exactly
as in `updateCanvasData`, then each non-alpha channel is
`(prev * prevFade) + (new * newFade)` with `newFade = fadeCnt / steps`
and `prevFade = 1 - fadeCnt / steps` (lines 435-436), stored through the
clamped byte buffer; the alpha byte is 255.  The source evaluates these
expressions in binary64, which can differ from this idealization by one
byte exactly when the blended value is an exact half-integer; see
`blendPixelFP` for the bit-faithful semantics. -/
def blendPixel (prev cur : RawFrame) (fadeCnt : ℕ) (p : ℕ) : Pixel :=
  let prevV := encodeSample (byteAt prev (2 * p)) (byteAt prev (2 * p + 1))
  let newV := encodeSample (byteAt cur (2 * p)) (byteAt cur (2 * p + 1))
  let newFade : ℚ := (fadeCnt : ℚ) / (steps : ℚ)
  let prevFade : ℚ := 1 - (fadeCnt : ℚ) / (steps : ℚ)
  (toUint8Clamp (prevV.1 * prevFade + newV.1 * newFade),
   toUint8Clamp (prevV.2 * prevFade + newV.2 * newFade),
   toUint8Clamp (prevV.2 * prevFade + newV.2 * newFade), 255)

/-- The pixel buffer written by one execution of the blend body (lines
432-468): the loop `for (i = 0; i < this.prevCanvasData.length; i += 2)`
iterates over `prevCanvasData`'s length — `newCanvasData`'s length is
never consulted. -/
def tweenBody (prev cur : RawFrame) (fadeCnt : ℕ) : List Pixel :=
  (List.range ((prev.length + 1) / 2)).map (blendPixel prev cur fadeCnt)

/-- The pixel buffer written by one tick of `tweenCanvasData` on a given
state.  A tick with a missing frame is a JavaScript `TypeError`
(reading `.length` of `null`) — no claim concerns that case, and it is
modelled as writing nothing. -/
def tickOutput (st : BlendState) : List Pixel :=
  match st.prevCanvasData, st.newCanvasData with
  | some prev, some cur => tweenBody prev cur st.fadeCnt
  | _, _ => []

/-- The state update of one tick (lines 474-478): `this.fadeCnt++`, then
`if (this.fadeCnt > steps) this.fadeCnt = 0`. -/
def tickStep (st : BlendState) : BlendState :=
  match st.prevCanvasData, st.newCanvasData with
  | some _, some _ =>
      ⟨st.prevCanvasData, st.newCanvasData,
       if steps < st.fadeCnt + 1 then 0 else st.fadeCnt + 1⟩
  | _, _ => st

/-- The pixel buffer produced by the `n`-th tick (for `n ≥ 1`) when `n`
successive ticks run from state `st` with no intervening submission —
the self-scheduled `requestAnimationFrame` chain of lines 480-482. -/
def outputAfter (st : BlendState) (n : ℕ) : List Pixel :=
  tickOutput (tickStep^[n - 1] st)

/-- The states reachable through the public interface: the constructor
state, frame submissions, and blend ticks in any interleaving. -/
inductive Reachable : BlendState → Prop
  | init : Reachable initState
  | submit (raw : RawFrame) (st : BlendState) :
      Reachable st → Reachable (submitFrame raw st)
  | tick (st : BlendState) : Reachable st → Reachable (tickStep st)

/-- Round a rational to the nearest integer, ties to even — the
tie-breaking rule of IEEE 754 round-to-nearest. -/
def roundEven (q : ℚ) : ℤ :=
  if (⌊q⌋ : ℚ) + 1/2 < q then ⌊q⌋ + 1
  else if q < (⌊q⌋ : ℚ) + 1/2 then ⌊q⌋
  else if 2 ∣ ⌊q⌋ then ⌊q⌋ else ⌊q⌋ + 1

/-- The IEEE 754 binary64 rounding (round to nearest, ties to even) of
an exact rational: round to the 53-significant-bit grid of the value's
binade.  Every number arising in this development lies far inside the
normal range, so overflow and subnormals do not occur and this is the
exact value of the corresponding JavaScript double operation. -/
def fl (q : ℚ) : ℚ :=
  if q = 0 then 0
  else (2 : ℚ) ^ (Int.log 2 |q| - 52) *
    ((roundEven (q / (2 : ℚ) ^ (Int.log 2 |q| - 52)) : ℤ) : ℚ)

/-- One blended RGBA pixel of the loop at lines 438-468 with the blend
arithmetic carried out in binary64 exactly as JavaScript does: the
weights of lines 435-436 are the rounded doubles `fl(fadeCnt/steps)` and
`fl(1 - fl(fadeCnt/steps))`, and each multiplication and addition of
lines 462-465 rounds its exact result (the per-sample encoder values are
exact doubles and need no rounding). -/
def blendPixelFP (prev cur : RawFrame) (fadeCnt : ℕ) (p : ℕ) : Pixel :=
  let prevV := encodeSample (byteAt prev (2 * p)) (byteAt prev (2 * p + 1))
  let newV := encodeSample (byteAt cur (2 * p)) (byteAt cur (2 * p + 1))
  let newFade : ℚ := fl ((fadeCnt : ℚ) / (steps : ℚ))
  let prevFade : ℚ := fl (1 - fl ((fadeCnt : ℚ) / (steps : ℚ)))
  (toUint8Clamp (fl (fl (prevV.1 * prevFade) + fl (newV.1 * newFade))),
   toUint8Clamp (fl (fl (prevV.2 * prevFade) + fl (newV.2 * newFade))),
   toUint8Clamp (fl (fl (prevV.2 * prevFade) + fl (newV.2 * newFade))), 255)

/-- The pixel buffer written by one execution of the blend body (lines
432-468) under the bit-faithful binary64 blend `blendPixelFP`. -/
def tweenBodyFP (prev cur : RawFrame) (fadeCnt : ℕ) : List Pixel :=
  (List.range ((prev.length + 1) / 2)).map (blendPixelFP prev cur fadeCnt)

/-- The pixel buffer written by one tick of `tweenCanvasData` on a given
state under the bit-faithful binary64 blend. -/
def tickOutputFP (st : BlendState) : List Pixel :=
  match st.prevCanvasData, st.newCanvasData with
  | some prev, some cur => tweenBodyFP prev cur st.fadeCnt
  | _, _ => []

/-! ### Helper lemmas -/

theorem toUint8Clamp_of_nonpos {q : ℚ} (h : q ≤ 0) : toUint8Clamp q = 0 := by
  unfold toUint8Clamp
  rw [if_pos h]

theorem toUint8Clamp_of_ge {q : ℚ} (h : 255 ≤ q) : toUint8Clamp q = 255 := by
  unfold toUint8Clamp
  rcases le_or_lt q 0 with h0 | h0
  · exact absurd (h.trans h0) (by norm_num)
  · rw [if_neg (not_le.mpr h0), if_pos h]

theorem toUint8Clamp_round_down {q : ℚ} {f : ℕ} (hl : (f : ℚ) ≤ q)
    (hu : q < (f : ℚ) + 1/2) (h255 : q < 255) : toUint8Clamp q = f := by
  rcases le_or_lt q 0 with h0 | h0
  · have hf0 : (f : ℚ) ≤ 0 := hl.trans h0
    have : f = 0 := by exact_mod_cast le_antisymm (by exact_mod_cast hf0) (Nat.zero_le f)
    rw [toUint8Clamp_of_nonpos h0, this]
  · have hfl : ⌊q⌋ = (f : ℤ) := by
      rw [Int.floor_eq_iff]
      constructor
      · exact_mod_cast hl
      · push_cast
        linarith
    unfold toUint8Clamp
    rw [if_neg (not_le.mpr h0), if_neg (not_le.mpr h255), hfl]
    rw [if_neg (by push_cast; linarith), if_pos (by push_cast; linarith)]
    exact Int.toNat_natCast f

theorem toUint8Clamp_round_up {q : ℚ} {f : ℕ} (hl : (f : ℚ) + 1/2 < q)
    (hu : q < (f : ℚ) + 1) (h255 : q < 255) : toUint8Clamp q = f + 1 := by
  have h0 : 0 < q := by
    have : (0 : ℚ) ≤ (f : ℚ) + 1/2 := by positivity
    linarith
  have hfl : ⌊q⌋ = (f : ℤ) := by
    rw [Int.floor_eq_iff]
    constructor
    · push_cast
      linarith
    · push_cast
      linarith
  unfold toUint8Clamp
  rw [if_neg (not_le.mpr h0), if_neg (not_le.mpr h255), hfl]
  rw [if_pos (by push_cast; linarith)]
  exact_mod_cast Int.toNat_natCast (f + 1)

theorem toUint8Clamp_natCast (n : ℕ) (h : n ≤ 255) : toUint8Clamp (n : ℚ) = n := by
  rcases eq_or_lt_of_le h with rfl | hlt
  · exact toUint8Clamp_of_ge (by norm_num)
  · rcases Nat.eq_zero_or_pos n with rfl | hn
    · exact toUint8Clamp_of_nonpos (by norm_num)
    · exact toUint8Clamp_round_down le_rfl (by norm_num) (by exact_mod_cast hlt)

theorem encodeSample_le {lo hi : ℕ} (h : jsTotal lo hi ≤ 1024) :
    encodeSample lo hi = (255 - (jsTotal lo hi : ℚ) * 255 / 1024, 255) := by
  have h' : ¬ 1024 < jsTotal lo hi := by omega
  simp only [encodeSample, BB.MathUtils.map, if_neg h', Prod.mk.injEq]
  exact ⟨by ring, trivial⟩

theorem encodeSample_gt {lo hi : ℕ} (h : 1024 < jsTotal lo hi) :
    encodeSample lo hi = (0, 255 - ((2048 : ℚ) - (jsTotal lo hi : ℚ)) * 255 / 1024) := by
  simp only [encodeSample, BB.MathUtils.map, if_pos h, Prod.mk.injEq]
  exact ⟨trivial, by ring⟩

theorem getD_map_range {α : Type} {n p : ℕ} (f : ℕ → α) (d : α) (h : p < n) :
    ((List.range n).map f).getD p d = f p := by
  rw [List.getD_eq_getElem?_getD, List.getElem?_map, List.getElem?_range h]
  rfl

/-- Blending a frame with itself reproduces the plain encoding at every
fade count, since `x * (1 - w) + x * w = x` exactly. -/
theorem tweenBody_self (d : RawFrame) (k : ℕ) :
    tweenBody d d k = updateCanvasData d := by
  unfold tweenBody updateCanvasData
  apply List.map_congr_left
  intro p _
  simp only [blendPixel, encodePixel]
  have e : ∀ x : ℚ, x * (1 - (k : ℚ) / (steps : ℚ)) + x * ((k : ℚ) / (steps : ℚ)) = x := by
    intro x
    ring
  rw [e, e]

/-- At fade count `steps` the new-frame weight is exactly 1 and the
previous-frame weight exactly 0, so the blend reproduces the encoding of
the current frame (for equal-length frames). -/
theorem tweenBody_at_steps (prev cur : RawFrame) (h : prev.length = cur.length) :
    tweenBody prev cur steps = updateCanvasData cur := by
  unfold tweenBody updateCanvasData
  rw [h]
  apply List.map_congr_left
  intro p _
  simp only [blendPixel, encodePixel]
  have hs : ((steps : ℕ) : ℚ) ≠ 0 := by norm_num [steps]
  have e : ∀ x y : ℚ,
      x * (1 - (steps : ℚ) / (steps : ℚ)) + y * ((steps : ℚ) / (steps : ℚ)) = y := by
    intro x y
    rw [div_self hs]
    ring
  rw [e, e]

/-- Running `k ≤ steps` ticks from a fresh transition state leaves the
frames untouched and the counter at `k`. -/
theorem tickStep_iterate (prev cur : RawFrame) (k : ℕ) (hk : k ≤ steps) :
    tickStep^[k] ⟨some prev, some cur, 0⟩ = ⟨some prev, some cur, k⟩ := by
  induction k with
  | zero => rfl
  | succ n ih =>
      rw [Function.iterate_succ_apply', ih (by omega)]
      unfold tickStep
      simp only
      rw [if_neg (by unfold steps at hk ⊢; omega)]

theorem byteAt_append_lt (d e : RawFrame) (i : ℕ) (h : i < d.length) :
    byteAt (d ++ e) i = byteAt d i := by
  unfold byteAt
  rw [List.getD_eq_getElem?_getD, List.getElem?_append, if_pos h,
    ← List.getD_eq_getElem?_getD]

theorem byteAt_oob (d : RawFrame) (i : ℕ) (h : d.length ≤ i) : byteAt d i = 0 := by
  unfold byteAt
  rw [List.getD_eq_default _ _ h]
  rfl

theorem byteAt_append_self (d : RawFrame) (x : Byte) :
    byteAt (d ++ [x]) d.length = x.val := by
  unfold byteAt
  simp [List.getD_eq_getElem?_getD, List.getElem?_append]

theorem encodePixel_le {lo hi : ℕ} (ht : jsTotal lo hi ≤ 1024) :
    encodePixel lo hi =
      (toUint8Clamp (255 - (jsTotal lo hi : ℚ) * 255 / 1024), 255, 255, 255) := by
  unfold encodePixel
  rw [encodeSample_le ht]
  norm_num [toUint8Clamp_of_ge le_rfl]

theorem encodePixel_gt {lo hi : ℕ} (ht : 1024 < jsTotal lo hi) :
    encodePixel lo hi =
      (0, toUint8Clamp (255 - ((2048 : ℚ) - (jsTotal lo hi : ℚ)) * 255 / 1024),
       toUint8Clamp (255 - ((2048 : ℚ) - (jsTotal lo hi : ℚ)) * 255 / 1024), 255) := by
  unfold encodePixel
  rw [encodeSample_gt ht]
  norm_num [toUint8Clamp_of_nonpos le_rfl]

theorem encodeSample_snd_gt {lo hi : ℕ} (h : 1024 < jsTotal lo hi) :
    (encodeSample lo hi).2 = 255 * ((jsTotal lo hi : ℚ) - 1024) / 1024 := by
  rw [encodeSample_gt h]
  show (255 : ℚ) - ((2048 : ℚ) - (jsTotal lo hi : ℚ)) * 255 / 1024 = _
  ring

/-! ### Claim theorems -/

/-- C1: for every raw depth sample reconstructed as
`total = (rawHighByte << 8) | rawLowByte`, the encoder produces
`low = map(total, 0, 1024, 255, 0)` and `high = 255` when `total ≤ 1024`,
and `low = 0`, `high = map(2048 - total, 0, 1024, 255, 0)` when
`total > 1024`, with the unclamped linear `map`; in particular
`encodeSample(0,0)` yields `low = 255` and `high = 255`. -/
theorem C1_encodeSample_branches (lo hi : ℕ) :
    (jsTotal lo hi ≤ 1024 →
      encodeSample lo hi = (BB.MathUtils.map (jsTotal lo hi : ℚ) 0 1024 255 0, 255)) ∧
    (1024 < jsTotal lo hi →
      encodeSample lo hi =
        (0, BB.MathUtils.map ((2048 : ℚ) - (jsTotal lo hi : ℚ)) 0 1024 255 0)) ∧
    encodeSample 0 0 = (255, 255) := by
  refine ⟨fun h => ?_, fun h => ?_, ?_⟩
  · simp only [encodeSample, if_neg (not_lt.mpr h)]
  · simp only [encodeSample, if_pos h]
  · rw [encodeSample_le (by decide), show jsTotal 0 0 = 0 from rfl]
    norm_num

theorem C1_encodeSample_branches_witness :
    encodeSample 0 0 = (BB.MathUtils.map (jsTotal 0 0 : ℚ) 0 1024 255 0, 255) ∧
    encodeSample 1 4 =
      (0, BB.MathUtils.map ((2048 : ℚ) - (jsTotal 1 4 : ℚ)) 0 1024 255 0) :=
  ⟨(C1_encodeSample_branches 0 0).1 (by decide),
   (C1_encodeSample_branches 1 4).2.1 (by decide)⟩

/-- C2 counterexample: in a mid-flight state (`fadeCnt = 3`, current frame
present), submitting the new frame `[8, 8]` does NOT overwrite
`newCanvasData` with it — lines 427-430 only store the argument when
`fadeCnt === 0`, so the submitted frame is dropped. -/
theorem C2_midflight_submit_counterexample :
    (submitFrame [(8 : Byte), 8]
        ⟨some [(0 : Byte), 0], some [(0 : Byte), 4], 3⟩).newCanvasData
      ≠ some [(8 : Byte), 8] := by decide

/-- C2 amended: submitting a raw frame while a blend is mid-flight
(`fadeCnt ≠ 0`, current frame present) leaves the whole state unchanged —
`previousFrame` is unchanged and `stepIndex` is not reset, as claimed, but
`currentFrame` is NOT overwritten: the new frame is dropped (the call
merely performs a blend tick on the old pair). -/
theorem C2_midflight_submit_drops_frame (raw : RawFrame) (st : BlendState)
    (hmid : st.fadeCnt ≠ 0) (hcur : st.newCanvasData ≠ none) :
    submitFrame raw st = st := by
  unfold submitFrame
  rw [if_neg hcur, if_neg hmid]

theorem C2_midflight_submit_drops_frame_witness :
    submitFrame [(8 : Byte), 8] ⟨some [(0 : Byte), 0], some [(0 : Byte), 4], 3⟩ =
      ⟨some [(0 : Byte), 0], some [(0 : Byte), 4], 3⟩ :=
  C2_midflight_submit_drops_frame _ _ (by decide) (by decide)

/-- C8: on a blender holding no frame yet, the first `submitFrame`
followed immediately by the first tick writes exactly
`encodeFrame(currentFrame)` byte for byte (both stored frames equal the
submitted one, so the blend weight cancels). -/
theorem C8_first_frame_fast_path (d : RawFrame) (h : d.length % 2 = 0) :
    tickOutput (submitFrame d initState) = updateCanvasData d := by
  rw [show submitFrame d initState = ⟨some d, some d, 0⟩ from rfl]
  rw [show tickOutput ⟨some d, some d, 0⟩ = tweenBody d d 0 from rfl]
  exact tweenBody_self d 0

theorem C8_first_frame_fast_path_witness :
    tickOutput (submitFrame [(0 : Byte), 8] initState) =
      updateCanvasData [(0 : Byte), 8] :=
  C8_first_frame_fast_path [(0 : Byte), 8] (by decide)

/-- C9: on `total ∈ (1024, 2048]` the high channel equals
`255 * (total - 1024) / 1024` in exact arithmetic, which is strictly
increasing in `total`, while `total = 1024` (bytes `0, 4`) still takes the
low branch with `high = 255`; at `total = 1025` (bytes `1, 4`) the high
channel is `255/1024` — a jump of almost the full byte range across one
depth unit. -/
theorem C9_high_channel_discontinuity :
    (∀ lo₁ hi₁ lo₂ hi₂ : ℕ,
       1024 < jsTotal lo₁ hi₁ → jsTotal lo₁ hi₁ ≤ 2048 →
       1024 < jsTotal lo₂ hi₂ → jsTotal lo₂ hi₂ ≤ 2048 →
       jsTotal lo₁ hi₁ < jsTotal lo₂ hi₂ →
       (encodeSample lo₁ hi₁).2 < (encodeSample lo₂ hi₂).2) ∧
    (∀ lo hi : ℕ, 1024 < jsTotal lo hi →
       (encodeSample lo hi).2 = 255 * ((jsTotal lo hi : ℚ) - 1024) / 1024) ∧
    (encodeSample 0 4).2 = 255 ∧
    (encodeSample 1 4).2 = 255 / 1024 := by
  refine ⟨fun lo₁ hi₁ lo₂ hi₂ h₁ _ h₂ _ hlt => ?_, fun lo hi h => encodeSample_snd_gt h,
    ?_, ?_⟩
  · rw [encodeSample_snd_gt h₁, encodeSample_snd_gt h₂]
    have hc : (jsTotal lo₁ hi₁ : ℚ) < (jsTotal lo₂ hi₂ : ℚ) := by exact_mod_cast hlt
    linarith
  · rw [encodeSample_le (by decide)]
  · rw [encodeSample_snd_gt (by decide), show jsTotal 1 4 = 1025 from rfl]
    norm_num

theorem C9_high_channel_discontinuity_witness :
    (encodeSample 2 4).2 < (encodeSample 3 4).2 ∧
    (encodeSample 1 4).2 = 255 * ((jsTotal 1 4 : ℚ) - 1024) / 1024 :=
  ⟨C9_high_channel_discontinuity.1 2 4 3 4 (by decide) (by decide) (by decide)
     (by decide) (by decide),
   C9_high_channel_discontinuity.2.1 1 4 (by decide)⟩

/-- C3 counterexample: from a fresh transition (`fadeCnt = 0`) between
the one-sample frames `[0,0]` (depth 0) and `[0,8]` (depth 2048), the
25th tick still uses `newWeight = 24/25`, so the buffer after exactly
`totalFadeSteps = 25` ticks is `[(10,255,255,255)]`, not
`encodeFrame(currentFrame) = [(0,255,255,255)]`. -/
theorem C3_totalFadeSteps_counterexample :
    outputAfter ⟨some [(0 : Byte), 0], some [(0 : Byte), 8], 0⟩ 25 ≠
      updateCanvasData [(0 : Byte), 8] := by
  have h1 : outputAfter ⟨some [(0 : Byte), 0], some [(0 : Byte), 8], 0⟩ 25 =
      [(10, 255, 255, 255)] := by
    unfold outputAfter
    rw [show (25 : ℕ) - 1 = 24 from rfl,
      tickStep_iterate _ _ 24 (by norm_num [steps])]
    rw [show tickOutput ⟨some [(0 : Byte), 0], some [(0 : Byte), 8], 24⟩ =
        tweenBody [(0 : Byte), 0] [(0 : Byte), 8] 24 from rfl]
    unfold tweenBody
    rw [show (([(0 : Byte), 0] : List Byte).length + 1) / 2 = 1 from rfl,
      show List.range 1 = [0] from by decide, List.map_singleton]
    simp only [blendPixel]
    rw [show byteAt [(0 : Byte), 0] 0 = 0 from rfl,
      show byteAt [(0 : Byte), 0] 1 = 0 from rfl,
      show byteAt [(0 : Byte), 8] 0 = 0 from rfl,
      show byteAt [(0 : Byte), 8] 1 = 8 from rfl]
    rw [encodeSample_le (by decide), encodeSample_gt (by decide)]
    rw [show jsTotal 0 0 = 0 from rfl, show jsTotal 0 8 = 2048 from rfl]
    have hsq : ((steps : ℕ) : ℚ) = 25 := by norm_num [steps]
    rw [hsq]
    norm_num
    constructor
    · rw [toUint8Clamp_round_down (f := 10) (by norm_num) (by norm_num) (by norm_num)]
    · rw [toUint8Clamp_of_ge (by norm_num)]
  have h2 : updateCanvasData [(0 : Byte), 8] = [(0, 255, 255, 255)] := by
    unfold updateCanvasData
    rw [show (([(0 : Byte), 8] : List Byte).length + 1) / 2 = 1 from rfl,
      show List.range 1 = [0] from by decide, List.map_singleton]
    rw [show byteAt [(0 : Byte), 8] 0 = 0 from rfl,
      show byteAt [(0 : Byte), 8] 1 = 8 from rfl]
    rw [encodePixel_gt (by decide), show jsTotal 0 8 = 2048 from rfl]
    rw [toUint8Clamp_of_ge (by norm_num)]
  rw [h1, h2]
  decide

/-- C3 amended: for every pair of equal-length previous/current frames,
after exactly `totalFadeSteps + 1 = 26` calls to `tick()` following a
frame transition (stepIndex starting at 0, so the ticks use weights
`0/25 .. 25/25`), the output pixel buffer equals
`encodeFrame(currentFrame)` byte for byte (`newWeight` has reached 1 on
the 26th tick), and the step counter has wrapped back to 0. -/
theorem C3_fade_completes_after_26_ticks (prev cur : RawFrame)
    (h : prev.length = cur.length) :
    outputAfter ⟨some prev, some cur, 0⟩ (steps + 1) = updateCanvasData cur ∧
    (tickStep^[steps + 1] ⟨some prev, some cur, 0⟩).fadeCnt = 0 := by
  constructor
  · unfold outputAfter
    rw [show steps + 1 - 1 = steps from rfl, tickStep_iterate _ _ steps le_rfl]
    rw [show tickOutput ⟨some prev, some cur, steps⟩ =
        tweenBody prev cur steps from rfl]
    exact tweenBody_at_steps prev cur h
  · rw [Function.iterate_succ_apply', tickStep_iterate _ _ steps le_rfl]
    simp only [tickStep]
    rw [if_pos (Nat.lt_succ_self steps)]

theorem C3_fade_completes_after_26_ticks_witness :
    outputAfter ⟨some [(0 : Byte), 0], some [(0 : Byte), 8], 0⟩ (steps + 1) =
      updateCanvasData [(0 : Byte), 8] ∧
    (tickStep^[steps + 1] ⟨some [(0 : Byte), 0], some [(0 : Byte), 8], 0⟩).fadeCnt = 0 :=
  C3_fade_completes_after_26_ticks [(0 : Byte), 0] [(0 : Byte), 8] rfl

/-- C5 counterexample: `updateCanvasData` on the odd-length buffer `[1]`
does not fail with any error — it encodes the trailing byte (with an
implicit high byte of 0, hence `total = 1`) into one normal RGBA pixel. -/
theorem C5_oddLength_counterexample :
    updateCanvasData [(1 : Byte)] = [(255, 255, 255, 255)] := by
  unfold updateCanvasData
  rw [show (([(1 : Byte)] : List Byte).length + 1) / 2 = 1 from rfl,
    show List.range 1 = [0] from by decide, List.map_singleton]
  rw [show byteAt [(1 : Byte)] 0 = 1 from rfl, show byteAt [(1 : Byte)] 1 = 0 from rfl]
  rw [encodePixel_le (by decide)]
  rw [show jsTotal 1 0 = 1 from rfl]
  rw [toUint8Clamp_round_up (f := 254) (by norm_num) (by norm_num) (by norm_num)]

/-- C5 amended: `encodeFrame` (`updateCanvasData`) performs no length
validation and never fails: every buffer, odd or even, is encoded into
`⌈length/2⌉` pixels, and an odd-length buffer's trailing byte is encoded
as a sample whose high byte reads as 0 — it is processed, neither
reported as `InvalidFrameLength` nor dropped. -/
theorem C5_no_length_validation (d : RawFrame) (h : d.length % 2 = 0) (lo : Byte) :
    (∀ e : RawFrame, (updateCanvasData e).length = (e.length + 1) / 2) ∧
    updateCanvasData (d ++ [lo]) = updateCanvasData d ++ [encodePixel lo.val 0] := by
  constructor
  · intro e
    unfold updateCanvasData
    rw [List.length_map, List.length_range]
  · obtain ⟨m, hm⟩ : ∃ m, d.length = 2 * m := ⟨d.length / 2, by omega⟩
    have hlen : (d ++ [lo]).length = 2 * m + 1 := by simp [hm]
    unfold updateCanvasData
    rw [hlen, hm]
    rw [show (2 * m + 1 + 1) / 2 = m + 1 from by omega,
      show (2 * m + 1) / 2 = m from by omega]
    rw [List.range_succ, List.map_append, List.map_singleton]
    congr 1
    · apply List.map_congr_left
      intro p hp
      rw [List.mem_range] at hp
      rw [byteAt_append_lt _ _ _ (by omega), byteAt_append_lt _ _ _ (by omega)]
    · rw [show (2 * m : ℕ) = d.length from hm.symm, byteAt_append_self,
        byteAt_oob _ _ (by simp)]

theorem C5_no_length_validation_witness :
    (∀ e : RawFrame, (updateCanvasData e).length = (e.length + 1) / 2) ∧
    updateCanvasData ([(0 : Byte), 0] ++ [(1 : Byte)]) =
      updateCanvasData [(0 : Byte), 0] ++ [encodePixel (1 : Byte).val 0] :=
  C5_no_length_validation [(0 : Byte), 0] (by decide) 1

/-- C6 counterexample: with mismatched frame lengths (previous has two
samples, current only one) and `fadeCnt = 5`, `tick()` does not fail with
any `FrameSizeMismatch` error — it writes a full two-pixel buffer in
which the second pixel blends the real previous sample (depth 2048)
against an out-of-bounds read of the current frame (coerced to depth 0,
encoding `(255,255)`), yielding the blended byte 51. -/
theorem C6_mismatch_counterexample :
    tickOutput ⟨some [(0 : Byte), 0, 0, 8], some [(0 : Byte), 0], 5⟩ =
      [(255, 255, 255, 255), (51, 255, 255, 255)] := by
  rw [show tickOutput ⟨some [(0 : Byte), 0, 0, 8], some [(0 : Byte), 0], 5⟩ =
      tweenBody [(0 : Byte), 0, 0, 8] [(0 : Byte), 0] 5 from rfl]
  unfold tweenBody
  rw [show (([(0 : Byte), 0, 0, 8] : List Byte).length + 1) / 2 = 2 from rfl,
    show List.range 2 = [0, 1] from by decide]
  simp only [List.map_cons, List.map_nil]
  simp only [blendPixel]
  rw [show byteAt [(0 : Byte), 0, 0, 8] (2 * 0) = 0 from rfl,
    show byteAt [(0 : Byte), 0, 0, 8] (2 * 0 + 1) = 0 from rfl,
    show byteAt [(0 : Byte), 0] (2 * 0) = 0 from rfl,
    show byteAt [(0 : Byte), 0] (2 * 0 + 1) = 0 from rfl,
    show byteAt [(0 : Byte), 0, 0, 8] (2 * 1) = 0 from rfl,
    show byteAt [(0 : Byte), 0, 0, 8] (2 * 1 + 1) = 8 from rfl,
    show byteAt [(0 : Byte), 0] (2 * 1) = 0 from rfl,
    show byteAt [(0 : Byte), 0] (2 * 1 + 1) = 0 from rfl]
  rw [encodeSample_le (by decide), encodeSample_gt (by decide)]
  rw [show jsTotal 0 0 = 0 from rfl, show jsTotal 0 8 = 2048 from rfl]
  have hsq : ((steps : ℕ) : ℚ) = 25 := by norm_num [steps]
  rw [hsq]
  norm_num
  refine ⟨toUint8Clamp_of_ge (by norm_num), ?_, toUint8Clamp_of_ge (by norm_num)⟩
  rw [show (51 : ℚ) = ((51 : ℕ) : ℚ) from by norm_num]
  exact toUint8Clamp_natCast 51 (by norm_num)

/-- C6 amended: a blend tick on frames of mismatched lengths does not
fail: it always writes `⌈previousFrame.length / 2⌉` pixels, and wherever
the current frame is too short its sample reads as depth 0 (out-of-bounds
bytes coerce to 0), whose encoding is `(255, 255)` — the blend proceeds
with those substitute channel values instead of reporting
`FrameSizeMismatch`. -/
theorem C6_mismatch_no_error (prev cur : RawFrame) (k : ℕ) :
    (tickOutput ⟨some prev, some cur, k⟩).length = (prev.length + 1) / 2 ∧
    (∀ p, p < (prev.length + 1) / 2 → cur.length ≤ 2 * p →
      (tickOutput ⟨some prev, some cur, k⟩).getD p (0, 0, 0, 0) =
        (toUint8Clamp
           ((encodeSample (byteAt prev (2 * p)) (byteAt prev (2 * p + 1))).1
              * (1 - (k : ℚ) / (steps : ℚ)) + 255 * ((k : ℚ) / (steps : ℚ))),
         toUint8Clamp
           ((encodeSample (byteAt prev (2 * p)) (byteAt prev (2 * p + 1))).2
              * (1 - (k : ℚ) / (steps : ℚ)) + 255 * ((k : ℚ) / (steps : ℚ))),
         toUint8Clamp
           ((encodeSample (byteAt prev (2 * p)) (byteAt prev (2 * p + 1))).2
              * (1 - (k : ℚ) / (steps : ℚ)) + 255 * ((k : ℚ) / (steps : ℚ))),
         255)) := by
  constructor
  · rw [show tickOutput ⟨some prev, some cur, k⟩ = tweenBody prev cur k from rfl]
    unfold tweenBody
    rw [List.length_map, List.length_range]
  · intro p hp hoob
    rw [show tickOutput ⟨some prev, some cur, k⟩ = tweenBody prev cur k from rfl]
    unfold tweenBody
    rw [getD_map_range _ _ hp]
    simp only [blendPixel]
    rw [byteAt_oob cur _ hoob, byteAt_oob cur _ (by omega)]
    have h00 : encodeSample 0 0 = (255, 255) := by
      rw [encodeSample_le (by decide), show jsTotal 0 0 = 0 from rfl]
      norm_num
    rw [h00]

theorem C6_mismatch_no_error_witness :
    (tickOutput ⟨some [(0 : Byte), 0, 0, 8], some [(0 : Byte), 0], 5⟩).getD 1
        (0, 0, 0, 0) =
      (toUint8Clamp
         ((encodeSample (byteAt [(0 : Byte), 0, 0, 8] (2 * 1))
              (byteAt [(0 : Byte), 0, 0, 8] (2 * 1 + 1))).1
            * (1 - (5 : ℚ) / (steps : ℚ)) + 255 * ((5 : ℚ) / (steps : ℚ))),
       toUint8Clamp
         ((encodeSample (byteAt [(0 : Byte), 0, 0, 8] (2 * 1))
              (byteAt [(0 : Byte), 0, 0, 8] (2 * 1 + 1))).2
            * (1 - (5 : ℚ) / (steps : ℚ)) + 255 * ((5 : ℚ) / (steps : ℚ))),
       toUint8Clamp
         ((encodeSample (byteAt [(0 : Byte), 0, 0, 8] (2 * 1))
              (byteAt [(0 : Byte), 0, 0, 8] (2 * 1 + 1))).2
            * (1 - (5 : ℚ) / (steps : ℚ)) + 255 * ((5 : ℚ) / (steps : ℚ))),
       255) := by
  have h := (C6_mismatch_no_error [(0 : Byte), 0, 0, 8] [(0 : Byte), 0] 5).2 1
    (by decide) (by decide)
  exact_mod_cast h

/-- C7: for every reachable blender state the step counter is an integer
in `[0, totalSteps]`, so the per-tick weight `stepIndex / totalSteps`
never exceeds 1 and its denominator (the compile-time constant 25) is
never zero; moreover one tick on a state with both frames present
increments the counter by one, resetting to 0 as soon as it would exceed
`totalSteps`. -/
theorem C7_stepIndex_invariant (st : BlendState) (h : Reachable st) :
    st.fadeCnt ≤ steps ∧ ((st.fadeCnt : ℚ) / (steps : ℚ) ≤ 1) ∧
    ((steps : ℚ) ≠ 0) ∧
    (∀ prev cur, st.prevCanvasData = some prev → st.newCanvasData = some cur →
      (tickStep st).fadeCnt =
        if steps < st.fadeCnt + 1 then 0 else st.fadeCnt + 1) := by
  have hle : st.fadeCnt ≤ steps := by
    induction h with
    | init => exact Nat.zero_le _
    | submit raw st' hr ih =>
        unfold submitFrame
        split
        · split
          · exact ih
          · exact ih
        · split
          · exact Nat.zero_le _
          · exact ih
    | tick st' hr ih =>
        unfold tickStep
        rcases hp : st'.prevCanvasData with _ | prev
        · simpa [hp] using ih
        · rcases hn : st'.newCanvasData with _ | cur
          · simpa [hp, hn] using ih
          · simp only [hp, hn]
            split
            · exact Nat.zero_le _
            · omega
  refine ⟨hle, ?_, by norm_num [steps], ?_⟩
  · rw [div_le_one (by norm_num [steps])]
    exact_mod_cast hle
  · intro prev cur hp hn
    unfold tickStep
    rw [hp, hn]

theorem C7_stepIndex_invariant_witness :
    (tickStep (submitFrame [(0 : Byte), 0] initState)).fadeCnt ≤ steps ∧
    (tickStep (tickStep (submitFrame [(0 : Byte), 0] initState))).fadeCnt =
      (if steps < (tickStep (submitFrame [(0 : Byte), 0] initState)).fadeCnt + 1
       then 0
       else (tickStep (submitFrame [(0 : Byte), 0] initState)).fadeCnt + 1) := by
  have h := C7_stepIndex_invariant (tickStep (submitFrame [(0 : Byte), 0] initState))
    (Reachable.tick _ (Reachable.submit _ _ Reachable.init))
  exact ⟨h.1, h.2.2.2 [(0 : Byte), 0] [(0 : Byte), 0] rfl rfl⟩

/-! ### Binary64 rounding lemmas -/

theorem fl_zero : fl 0 = 0 := by
  simp [fl]

theorem roundEven_intCast (m : ℤ) : roundEven (m : ℚ) = m := by
  unfold roundEven
  rw [Int.floor_intCast]
  rw [if_neg (by linarith), if_pos (by linarith)]

theorem roundEven_down {q : ℚ} {F : ℤ} (h1 : (F : ℚ) ≤ q) (h2 : q < (F : ℚ) + 1/2) :
    roundEven q = F := by
  have hfl : ⌊q⌋ = F := Int.floor_eq_iff.mpr ⟨h1, by push_cast; linarith⟩
  unfold roundEven
  rw [hfl, if_neg (by linarith), if_pos (by linarith)]

theorem roundEven_up {q : ℚ} {F : ℤ} (h1 : (F : ℚ) + 1/2 < q) (h2 : q < (F : ℚ) + 1) :
    roundEven q = F + 1 := by
  have hfl : ⌊q⌋ = F := Int.floor_eq_iff.mpr ⟨by linarith, by push_cast; linarith⟩
  unfold roundEven
  rw [hfl, if_pos (by linarith)]

theorem int_log_eq_of {q : ℚ} {E : ℤ} (h0 : 0 < q) (h1 : (2 : ℚ) ^ E ≤ q)
    (h2 : q < (2 : ℚ) ^ (E + 1)) : Int.log 2 q = E := by
  have hl : (2 : ℚ) ^ (Int.log 2 q) ≤ q := Int.zpow_log_le_self (by norm_num) h0
  have hu : q < (2 : ℚ) ^ (Int.log 2 q + 1) := Int.lt_zpow_succ_log_self (by norm_num) q
  have a1 : Int.log 2 q < E + 1 :=
    (zpow_lt_zpow_iff_right₀ (by norm_num : (1 : ℚ) < 2)).mp (lt_of_le_of_lt hl h2)
  have a2 : E < Int.log 2 q + 1 :=
    (zpow_lt_zpow_iff_right₀ (by norm_num : (1 : ℚ) < 2)).mp (lt_of_le_of_lt h1 hu)
  omega

/-- Evaluation rule for `fl` at a concrete positive rational: if
`2^E ≤ q < 2^(E+1)` and the half-even rounding of `q * 2^D` (with
`D = 52 - E`) is `M`, then the binary64 value of `q` is `M / 2^D`. -/
theorem fl_eval_div {q : ℚ} {E M : ℤ} {D : ℕ} (h0 : 0 < q) (hD : (D : ℤ) = 52 - E)
    (h1 : (2 : ℚ) ^ E ≤ q) (h2 : q < (2 : ℚ) ^ (E + 1))
    (hM : roundEven (q * 2 ^ D) = M) : fl q = (M : ℚ) / 2 ^ D := by
  unfold fl
  rw [if_neg (ne_of_gt h0), abs_of_pos h0, int_log_eq_of h0 h1 h2]
  have he : (2 : ℚ) ^ (E - 52) = ((2 : ℚ) ^ D)⁻¹ := by
    rw [show E - 52 = -(D : ℤ) from by omega, zpow_neg, zpow_natCast]
  rw [he, div_eq_mul_inv, inv_inv, hM, inv_mul_eq_div]

/-- A rational with at most 53 significant bits on the `2^(-t)` grid is
an exact binary64 double: `fl` fixes it. -/
theorem fl_eq_self {q : ℚ} {n : ℤ} {t : ℕ} (hq : q = (n : ℚ) / 2 ^ t)
    (hb : |q| * 2 ^ t < 2 ^ 53) : fl q = q := by
  rcases eq_or_ne q 0 with rfl | hne
  · exact fl_zero
  · have habs : 0 < |q| := abs_pos.mpr hne
    have hl : (2 : ℚ) ^ (Int.log 2 |q|) ≤ |q| := Int.zpow_log_le_self (by norm_num) habs
    have hE : Int.log 2 |q| ≤ 52 - (t : ℤ) := by
      have hcomb : (2 : ℚ) ^ (Int.log 2 |q|) * 2 ^ t < 2 ^ 53 := by
        calc (2 : ℚ) ^ (Int.log 2 |q|) * 2 ^ t ≤ |q| * 2 ^ t :=
              mul_le_mul_of_nonneg_right hl (by positivity)
          _ < 2 ^ 53 := hb
      have hz : (2 : ℚ) ^ (Int.log 2 |q| + (t : ℤ)) < (2 : ℚ) ^ ((53 : ℕ) : ℤ) := by
        rw [zpow_add₀ (two_ne_zero : (2 : ℚ) ≠ 0), zpow_natCast, zpow_natCast]
        exact hcomb
      have := (zpow_lt_zpow_iff_right₀ (by norm_num : (1 : ℚ) < 2)).mp hz
      omega
    set E := Int.log 2 |q| with hEdef
    have hd0 : (0 : ℤ) ≤ 52 - E - (t : ℤ) := by omega
    obtain ⟨d, hd⟩ := Int.eq_ofNat_of_zero_le hd0
    have h1 : (2 : ℚ) ^ t * (2 : ℚ) ^ (E - 52) * (2 : ℚ) ^ d = 1 := by
      rw [show (2 : ℚ) ^ t = (2 : ℚ) ^ ((t : ℕ) : ℤ) from (zpow_natCast 2 t).symm,
        show (2 : ℚ) ^ d = (2 : ℚ) ^ ((d : ℕ) : ℤ) from (zpow_natCast 2 d).symm]
      rw [← zpow_add₀ (two_ne_zero : (2 : ℚ) ≠ 0), ← zpow_add₀ (two_ne_zero : (2 : ℚ) ≠ 0)]
      rw [show ((t : ℕ) : ℤ) + (E - 52) + ((d : ℕ) : ℤ) = 0 from by omega]
      exact zpow_zero 2
    have hz52 : (2 : ℚ) ^ (E - 52) ≠ 0 := zpow_ne_zero _ (two_ne_zero)
    have h2t : (2 : ℚ) ^ t ≠ 0 := pow_ne_zero _ (two_ne_zero)
    have hgrid : q / (2 : ℚ) ^ (E - 52) = ((n * 2 ^ d : ℤ) : ℚ) := by
      rw [hq]
      push_cast
      rw [div_div, div_eq_iff (by exact mul_ne_zero h2t hz52)]
      linear_combination (-(n : ℚ)) * h1
    unfold fl
    rw [if_neg hne, ← hEdef, hgrid, roundEven_intCast]
    rw [hq]
    push_cast
    rw [eq_div_iff h2t]
    linear_combination (n : ℚ) * h1

theorem fl_one : fl 1 = 1 :=
  fl_eq_self (n := 1) (t := 0) (by norm_num) (by norm_num)

/-- The double `1/25`, the `newFade` weight at `fadeCnt = 1`. -/
theorem fl_W : fl ((1 : ℚ) / 25) = 5764607523034235 / 2 ^ 57 := by
  have h := fl_eval_div (q := (1 : ℚ) / 25) (E := -5) (D := 57) (M := 5764607523034235)
    (by norm_num) (by norm_num) (by norm_num) (by norm_num)
    (by rw [roundEven_up (F := 5764607523034234) (by norm_num) (by norm_num)]; norm_num)
  rw [h]
  norm_num

/-- The double `1 - fl(1/25)`, the `prevFade` weight at `fadeCnt = 1`. -/
theorem fl_PF : fl (1 - (5764607523034235 : ℚ) / 2 ^ 57) = 8646911284551352 / 2 ^ 53 := by
  have h := fl_eval_div (q := 1 - (5764607523034235 : ℚ) / 2 ^ 57) (E := -1) (D := 53)
    (M := 8646911284551352)
    (by norm_num) (by norm_num) (by norm_num) (by norm_num)
    (by rw [roundEven_down (F := 8646911284551352) (by norm_num) (by norm_num)])
  rw [h]
  norm_num

theorem fl_A1 :
    fl ((255 / 2 : ℚ) * (8646911284551352 / 2 ^ 53)) = 8613134287346073 / 2 ^ 46 := by
  have h := fl_eval_div (q := (255 / 2 : ℚ) * (8646911284551352 / 2 ^ 53))
    (E := 6) (D := 46) (M := 8613134287346073)
    (by norm_num) (by norm_num) (by norm_num) (by norm_num)
    (by rw [roundEven_down (F := 8613134287346073) (by norm_num) (by norm_num)])
  rw [h]
  norm_num

theorem fl_B1 :
    fl ((255 / 2 : ℚ) * (5764607523034235 / 2 ^ 57)) = 5742089524897383 / 2 ^ 50 := by
  have h := fl_eval_div (q := (255 / 2 : ℚ) * (5764607523034235 / 2 ^ 57))
    (E := 2) (D := 50) (M := 5742089524897383)
    (by norm_num) (by norm_num) (by norm_num) (by norm_num)
    (by rw [roundEven_up (F := 5742089524897382) (by norm_num) (by norm_num)]; norm_num)
  rw [h]
  norm_num

theorem fl_S1 :
    fl ((8613134287346073 : ℚ) / 2 ^ 46 + 5742089524897383 / 2 ^ 50) =
      8972014882652159 / 2 ^ 46 := by
  have h := fl_eval_div (q := (8613134287346073 : ℚ) / 2 ^ 46 + 5742089524897383 / 2 ^ 50)
    (E := 6) (D := 46) (M := 8972014882652159)
    (by norm_num) (by norm_num) (by norm_num) (by norm_num)
    (by rw [roundEven_down (F := 8972014882652159) (by norm_num) (by norm_num)])
  rw [h]
  norm_num

theorem fl_A2 :
    fl ((23715 / 1024 : ℚ) * (8646911284551352 / 2 ^ 53)) = 6257980380649881 / 2 ^ 48 := by
  have h := fl_eval_div (q := (23715 / 1024 : ℚ) * (8646911284551352 / 2 ^ 53))
    (E := 4) (D := 48) (M := 6257980380649881)
    (by norm_num) (by norm_num) (by norm_num) (by norm_num)
    (by rw [roundEven_down (F := 6257980380649881) (by norm_num) (by norm_num)])
  rw [h]
  norm_num

theorem fl_B2 :
    fl ((10455 / 128 : ℚ) * (5764607523034235 / 2 ^ 57)) = 7357052203774771 / 2 ^ 51 := by
  have h := fl_eval_div (q := (10455 / 128 : ℚ) * (5764607523034235 / 2 ^ 57))
    (E := 1) (D := 51) (M := 7357052203774771)
    (by norm_num) (by norm_num) (by norm_num) (by norm_num)
    (by rw [roundEven_down (F := 7357052203774771) (by norm_num) (by norm_num)])
  rw [h]
  norm_num

theorem fl_S2 :
    fl ((6257980380649881 : ℚ) / 2 ^ 48 + 7357052203774771 / 2 ^ 51) =
      7177611906121727 / 2 ^ 48 := by
  have h := fl_eval_div (q := (6257980380649881 : ℚ) / 2 ^ 48 + 7357052203774771 / 2 ^ 51)
    (E := 4) (D := 48) (M := 7177611906121727)
    (by norm_num) (by norm_num) (by norm_num) (by norm_num)
    (by rw [roundEven_down (F := 7177611906121727) (by norm_num) (by norm_num)])
  rw [h]
  norm_num

theorem byteAt_lt (d : RawFrame) (i : ℕ) : byteAt d i < 256 := (d.getD i 0).isLt

theorem jsTotal_lt {lo hi : ℕ} (hlo : lo < 256) (hhi : hi < 256) : jsTotal lo hi < 65536 := by
  unfold jsTotal
  have h1 : hi <<< 8 < 2 ^ 16 := by
    rw [Nat.shiftLeft_eq]
    omega
  have h := Nat.bitwise_lt_two_pow (f := or) h1 (show lo < 2 ^ 16 by omega)
  simpa using h

/-- Every value the per-sample encoder produces from real bytes is an
exact binary64 double (a dyadic rational of at most 25 significant
bits), so the encoder arithmetic incurs no rounding. -/
theorem encodeSample_fl {lo hi : ℕ} (hlo : lo < 256) (hhi : hi < 256) :
    fl (encodeSample lo hi).1 = (encodeSample lo hi).1 ∧
    fl (encodeSample lo hi).2 = (encodeSample lo hi).2 := by
  have htot : jsTotal lo hi < 65536 := jsTotal_lt hlo hhi
  have htq : (jsTotal lo hi : ℚ) < 65536 := by exact_mod_cast htot
  have htq0 : (0 : ℚ) ≤ (jsTotal lo hi : ℚ) := by positivity
  by_cases h : 1024 < jsTotal lo hi
  · have hgt : (1024 : ℚ) < (jsTotal lo hi : ℚ) := by exact_mod_cast h
    rw [encodeSample_gt h]
    constructor
    · exact fl_zero
    · apply fl_eq_self (n := 255 * (jsTotal lo hi : ℤ) - 261120) (t := 10)
      · push_cast
        ring
      · have hX : (0 : ℚ) < 255 - ((2048 : ℚ) - (jsTotal lo hi : ℚ)) * 255 / 1024 := by
          linarith
        rw [abs_of_pos hX]
        nlinarith
  · have hle : (jsTotal lo hi : ℚ) ≤ 1024 := by exact_mod_cast le_of_not_lt h
    rw [encodeSample_le (le_of_not_lt h)]
    constructor
    · apply fl_eq_self (n := 261120 - 255 * (jsTotal lo hi : ℤ)) (t := 10)
      · push_cast
        ring
      · have hX : (0 : ℚ) ≤ 255 - (jsTotal lo hi : ℚ) * 255 / 1024 := by linarith
        rw [abs_of_nonneg hX]
        nlinarith
    · apply fl_eq_self (n := 255) (t := 0)
      · norm_num
      · norm_num

theorem blendPixelFP_fst (prev cur : RawFrame) (k p : ℕ) :
    (blendPixelFP prev cur k p).1 =
      toUint8Clamp (fl (fl ((encodeSample (byteAt prev (2 * p)) (byteAt prev (2 * p + 1))).1
          * fl (1 - fl ((k : ℚ) / (steps : ℚ))))
        + fl ((encodeSample (byteAt cur (2 * p)) (byteAt cur (2 * p + 1))).1
          * fl ((k : ℚ) / (steps : ℚ))))) := rfl

theorem encodePixel_fst (lo hi : ℕ) :
    (encodePixel lo hi).1 = toUint8Clamp (encodeSample lo hi).1 := rfl

theorem toUint8Clamp_tie_odd {q : ℚ} {f : ℕ} (hq : q = (f : ℚ) + 1/2)
    (hodd : f % 2 = 1) (h255 : q < 255) : toUint8Clamp q = f + 1 := by
  have h0 : 0 < q := by
    rw [hq]
    positivity
  have hfl : ⌊q⌋ = (f : ℤ) := by
    rw [Int.floor_eq_iff]
    constructor
    · rw [hq]
      push_cast
      linarith
    · rw [hq]
      push_cast
      linarith
  unfold toUint8Clamp
  rw [if_neg (not_le.mpr h0), if_neg (not_le.mpr h255), hfl]
  rw [if_neg (by rw [hq]; push_cast; exact lt_irrefl _),
    if_neg (by rw [hq]; push_cast; exact lt_irrefl _), if_neg (by omega)]
  omega

/-- At `fadeCnt = 0` the binary64 weights are the exact doubles 0 and 1,
so the double blend of a frame with itself reproduces the plain
encoding. -/
theorem blendPixelFP_self_zero (d : RawFrame) (p : ℕ) :
    blendPixelFP d d 0 p = encodePixel (byteAt d (2 * p)) (byteAt d (2 * p + 1)) := by
  have hv := encodeSample_fl (byteAt_lt d (2 * p)) (byteAt_lt d (2 * p + 1))
  simp only [blendPixelFP, encodePixel]
  rw [Nat.cast_zero, zero_div, fl_zero, sub_zero, fl_one]
  simp only [mul_one, mul_zero, fl_zero, add_zero, hv.1, hv.2]

/-- At `fadeCnt = steps` the binary64 weights are the exact doubles 1
and 0, so the double blend of a frame with itself reproduces the plain
encoding. -/
theorem blendPixelFP_self_steps (d : RawFrame) (p : ℕ) :
    blendPixelFP d d steps p = encodePixel (byteAt d (2 * p)) (byteAt d (2 * p + 1)) := by
  have hv := encodeSample_fl (byteAt_lt d (2 * p)) (byteAt_lt d (2 * p + 1))
  simp only [blendPixelFP, encodePixel]
  rw [show ((steps : ℕ) : ℚ) / ((steps : ℕ) : ℚ) = 1 from by norm_num [steps], fl_one,
    sub_self, fl_zero]
  simp only [mul_one, mul_zero, fl_zero, zero_add, hv.1, hv.2]

/-- C4 counterexample: at `prev = [163,3]` (total 931, low channel
`23715/1024`), `cur = [184,2]` (total 696, low channel `10455/128`) and
step index 1, the exact blend of the low channels is exactly `51/2`,
which the claimed formula stores as `toUint8Clamp (51/2) = 26`; but the
binary64 evaluation the source performs yields
`25.499999999999996...`, so the program stores byte 25. -/
theorem C4_blend_linearity_counterexample :
    ((tickOutputFP ⟨some [(163 : Byte), 3], some [(184 : Byte), 2], 1⟩).getD 0
        (0, 0, 0, 0)).1 = 25 ∧
    toUint8Clamp
      ((encodeSample (byteAt [(163 : Byte), 3] (2 * 0))
            (byteAt [(163 : Byte), 3] (2 * 0 + 1))).1 * (1 - (1 : ℚ) / (steps : ℚ))
        + (encodeSample (byteAt [(184 : Byte), 2] (2 * 0))
            (byteAt [(184 : Byte), 2] (2 * 0 + 1))).1 * ((1 : ℚ) / (steps : ℚ))) = 26 := by
  have hvp : (encodeSample 163 3).1 = 23715 / 1024 := by
    rw [encodeSample_le (by decide), show jsTotal 163 3 = 931 from rfl]
    norm_num
  have hvn : (encodeSample 184 2).1 = 10455 / 128 := by
    rw [encodeSample_le (by decide), show jsTotal 184 2 = 696 from rfl]
    norm_num
  constructor
  · rw [show tickOutputFP ⟨some [(163 : Byte), 3], some [(184 : Byte), 2], 1⟩ =
        tweenBodyFP [(163 : Byte), 3] [(184 : Byte), 2] 1 from rfl]
    unfold tweenBodyFP
    rw [getD_map_range _ _ (by decide), blendPixelFP_fst]
    rw [show byteAt [(163 : Byte), 3] (2 * 0) = 163 from rfl,
      show byteAt [(163 : Byte), 3] (2 * 0 + 1) = 3 from rfl,
      show byteAt [(184 : Byte), 2] (2 * 0) = 184 from rfl,
      show byteAt [(184 : Byte), 2] (2 * 0 + 1) = 2 from rfl, hvp, hvn]
    rw [show ((1 : ℕ) : ℚ) / (steps : ℚ) = 1 / 25 from by norm_num [steps]]
    rw [fl_W, fl_PF, fl_A2, fl_B2, fl_S2]
    rw [toUint8Clamp_round_down (f := 25) (by norm_num) (by norm_num) (by norm_num)]
  · rw [show byteAt [(163 : Byte), 3] (2 * 0) = 163 from rfl,
      show byteAt [(163 : Byte), 3] (2 * 0 + 1) = 3 from rfl,
      show byteAt [(184 : Byte), 2] (2 * 0) = 184 from rfl,
      show byteAt [(184 : Byte), 2] (2 * 0 + 1) = 2 from rfl, hvp, hvn]
    rw [show (23715 / 1024 : ℚ) * (1 - (1 : ℚ) / (steps : ℚ))
        + (10455 / 128 : ℚ) * ((1 : ℚ) / (steps : ℚ)) = 51 / 2 from by norm_num [steps]]
    rw [toUint8Clamp_tie_odd (f := 25) (by norm_num) (by norm_num) (by norm_num)]

/-- C4 amended: at step index `k` with both frames present, the pixel
written at position `p` carries, in each of its three non-alpha
channels, the binary64 evaluation of
`prevChannel * (1 - k/totalSteps) + newChannel * (k/totalSteps)` — the
weights `fl(k/steps)` and `fl(1 - fl(k/steps))` and each product and
sum rounded to double precision — stored through the clamped byte
conversion, with the weight computed from the step index before the
post-tick increment and alpha the constant 255.  This agrees with the
exact rational blend except when the exact blend value falls on a
rounding boundary (an exact half-integer). -/
theorem C4_blend_linearity_fp (prev cur : RawFrame) (k : ℕ) (hk : k ≤ steps) (p : ℕ)
    (hp : p < (prev.length + 1) / 2) :
    (tickOutputFP ⟨some prev, some cur, k⟩).getD p (0, 0, 0, 0) =
      (toUint8Clamp (fl (fl ((encodeSample (byteAt prev (2 * p)) (byteAt prev (2 * p + 1))).1
            * fl (1 - fl ((k : ℚ) / (steps : ℚ))))
          + fl ((encodeSample (byteAt cur (2 * p)) (byteAt cur (2 * p + 1))).1
            * fl ((k : ℚ) / (steps : ℚ))))),
       toUint8Clamp (fl (fl ((encodeSample (byteAt prev (2 * p)) (byteAt prev (2 * p + 1))).2
            * fl (1 - fl ((k : ℚ) / (steps : ℚ))))
          + fl ((encodeSample (byteAt cur (2 * p)) (byteAt cur (2 * p + 1))).2
            * fl ((k : ℚ) / (steps : ℚ))))),
       toUint8Clamp (fl (fl ((encodeSample (byteAt prev (2 * p)) (byteAt prev (2 * p + 1))).2
            * fl (1 - fl ((k : ℚ) / (steps : ℚ))))
          + fl ((encodeSample (byteAt cur (2 * p)) (byteAt cur (2 * p + 1))).2
            * fl ((k : ℚ) / (steps : ℚ))))),
       255) := by
  rw [show tickOutputFP ⟨some prev, some cur, k⟩ = tweenBodyFP prev cur k from rfl]
  unfold tweenBodyFP
  rw [getD_map_range _ _ hp]
  simp only [blendPixelFP]

theorem C4_blend_linearity_fp_witness :
    (tickOutputFP ⟨some [(0 : Byte), 2], some [(0 : Byte), 2], 1⟩).getD 0 (0, 0, 0, 0) =
      (toUint8Clamp (fl (fl ((encodeSample (byteAt [(0 : Byte), 2] (2 * 0))
              (byteAt [(0 : Byte), 2] (2 * 0 + 1))).1
            * fl (1 - fl (((1 : ℕ) : ℚ) / (steps : ℚ))))
          + fl ((encodeSample (byteAt [(0 : Byte), 2] (2 * 0))
              (byteAt [(0 : Byte), 2] (2 * 0 + 1))).1
            * fl (((1 : ℕ) : ℚ) / (steps : ℚ))))),
       toUint8Clamp (fl (fl ((encodeSample (byteAt [(0 : Byte), 2] (2 * 0))
              (byteAt [(0 : Byte), 2] (2 * 0 + 1))).2
            * fl (1 - fl (((1 : ℕ) : ℚ) / (steps : ℚ))))
          + fl ((encodeSample (byteAt [(0 : Byte), 2] (2 * 0))
              (byteAt [(0 : Byte), 2] (2 * 0 + 1))).2
            * fl (((1 : ℕ) : ℚ) / (steps : ℚ))))),
       toUint8Clamp (fl (fl ((encodeSample (byteAt [(0 : Byte), 2] (2 * 0))
              (byteAt [(0 : Byte), 2] (2 * 0 + 1))).2
            * fl (1 - fl (((1 : ℕ) : ℚ) / (steps : ℚ))))
          + fl ((encodeSample (byteAt [(0 : Byte), 2] (2 * 0))
              (byteAt [(0 : Byte), 2] (2 * 0 + 1))).2
            * fl (((1 : ℕ) : ℚ) / (steps : ℚ))))),
       255) :=
  C4_blend_linearity_fp [(0 : Byte), 2] [(0 : Byte), 2] 1 (by decide) 0 (by decide)

/-- C10 counterexample: with `d = [0,2]` (depth 512, low channel exactly
127.5) at step index 1, the binary64 blend of `d` with itself computes
`127.49999999999999...` and stores byte 127, while `updateCanvasData d`
stores `toUint8Clamp (127.5) = 128` — the two loops are not byte-for-byte
equal at every step index. -/
theorem C10_update_tween_counterexample :
    tickOutputFP ⟨some [(0 : Byte), 2], some [(0 : Byte), 2], 1⟩ ≠
      updateCanvasData [(0 : Byte), 2] := by
  have hv1 : (encodeSample 0 2).1 = 255 / 2 := by
    rw [encodeSample_le (by decide), show jsTotal 0 2 = 512 from rfl]
    norm_num
  have h1 : ((tickOutputFP ⟨some [(0 : Byte), 2], some [(0 : Byte), 2], 1⟩).getD 0
      (0, 0, 0, 0)).1 = 127 := by
    rw [show tickOutputFP ⟨some [(0 : Byte), 2], some [(0 : Byte), 2], 1⟩ =
        tweenBodyFP [(0 : Byte), 2] [(0 : Byte), 2] 1 from rfl]
    unfold tweenBodyFP
    rw [getD_map_range _ _ (by decide), blendPixelFP_fst]
    rw [show byteAt [(0 : Byte), 2] (2 * 0) = 0 from rfl,
      show byteAt [(0 : Byte), 2] (2 * 0 + 1) = 2 from rfl, hv1]
    rw [show ((1 : ℕ) : ℚ) / (steps : ℚ) = 1 / 25 from by norm_num [steps]]
    rw [fl_W, fl_PF, fl_A1, fl_B1, fl_S1]
    rw [toUint8Clamp_round_down (f := 127) (by norm_num) (by norm_num) (by norm_num)]
  have h2 : ((updateCanvasData [(0 : Byte), 2]).getD 0 (0, 0, 0, 0)).1 = 128 := by
    unfold updateCanvasData
    rw [getD_map_range _ _ (by decide), encodePixel_fst]
    rw [show byteAt [(0 : Byte), 2] (2 * 0) = 0 from rfl,
      show byteAt [(0 : Byte), 2] (2 * 0 + 1) = 2 from rfl, hv1]
    rw [toUint8Clamp_tie_odd (f := 127) (by norm_num) (by norm_num) (by norm_num)]
  intro heq
  rw [heq] at h1
  omega

/-- C10 amended: the per-sample encodings in the two loops are the same
computation, but the buffers are not byte-for-byte equal at every step
index, because the binary64 blend of equal channel values can round an
exact half-integer channel to the neighboring byte.  Byte-for-byte
equality does hold, for every even-length frame, at the weight-exact
step indices 0 and `totalSteps`, where the blend weights are the exact
doubles 0 and 1. -/
theorem C10_update_tween_agreement_at_exact_weights (d : RawFrame)
    (h : d.length % 2 = 0) :
    tickOutputFP ⟨some d, some d, 0⟩ = updateCanvasData d ∧
    tickOutputFP ⟨some d, some d, steps⟩ = updateCanvasData d := by
  constructor
  · rw [show tickOutputFP ⟨some d, some d, 0⟩ = tweenBodyFP d d 0 from rfl]
    unfold tweenBodyFP updateCanvasData
    apply List.map_congr_left
    intro p _
    exact blendPixelFP_self_zero d p
  · rw [show tickOutputFP ⟨some d, some d, steps⟩ = tweenBodyFP d d steps from rfl]
    unfold tweenBodyFP updateCanvasData
    apply List.map_congr_left
    intro p _
    exact blendPixelFP_self_steps d p

theorem C10_update_tween_agreement_at_exact_weights_witness :
    tickOutputFP ⟨some [(0 : Byte), 2], some [(0 : Byte), 2], 0⟩ =
      updateCanvasData [(0 : Byte), 2] ∧
    tickOutputFP ⟨some [(0 : Byte), 2], some [(0 : Byte), 2], steps⟩ =
      updateCanvasData [(0 : Byte), 2] :=
  C10_update_tween_agreement_at_exact_weights [(0 : Byte), 2] (by decide)
